import Mathlib

/-!
Verification of the P2P database-synchronization layer of the
Tauri-Product-Review repository (directory `databaseAPI/p2p_sync` and the
route module `databaseAPI/routes/p2p_sync.py`).

The Python code is shallowly embedded: each relevant method becomes a pure
Lean function over explicit state.  Timestamps (`datetime` values) are
modelled as natural numbers, node identities as `String` with Lean's
lexicographic order (Python compares `str` by code points, which agrees with
Lean's `String` order), the database table as a function from primary key to
an optional stored row, and the peer registry (a Python `dict`) as an
association list with dict-style upsert.
-/

namespace P2P

/-- Row payload: the non-metadata columns of a change dictionary other than
`id` and `updated_at`, modelled as column-name/value pairs. -/
abbrev RowData := List (String × String)

/-- A stored table row: its `updated_at` column and its remaining payload. -/
structure Row where
  ua : Nat
  data : RowData
  deriving DecidableEq, Repr

/-- A single change dictionary as received by
`DataSyncManager._apply_single_change`:
`idField` models `change.get('id')` (`none` when the key is absent);
`ts` models the outcome of `datetime.fromisoformat(change['updated_at'])`
(`some t` when the string parses to time `t`, `none` when the string is
malformed and the parse raises).  The change feed generated by
`_get_table_changes_since` always includes an `updated_at` column, so every
row carries the field.  `data` is the remaining payload after the metadata
keys `change_type`, `source_node`, `sync_timestamp` are stripped. -/
structure Change where
  idField : Option Nat
  ts : Option Nat
  data : RowData
  deriving DecidableEq, Repr

/-- The local table, keyed by primary key `id`. -/
abbrev Store := Nat → Option Row

/-- Embeds `DataSyncManager._update_record`: `UPDATE table SET ... WHERE id = %s`,
writing the change's columns (including `updated_at`) over the stored row. -/
def updateRecord (store : Store) (rid : Nat) (row : Row) : Store :=
  fun k => if k = rid then some row else store k

/-- Embeds `DataSyncManager._insert_record`:
`INSERT INTO table (...) VALUES (...) ON CONFLICT (id) DO NOTHING` —
a no-op when a row with the key already exists. -/
def insertRecord (store : Store) (rid : Nat) (row : Row) : Store :=
  if (store rid).isSome then store else updateRecord store rid row

/-- Embeds `DataSyncManager._apply_single_change` for one incoming change.
Control flow of the source:
* `record_id = change.get('id')`; a falsy id (absent or `0`) is logged and
  the method returns `False` without touching the store;
* `SELECT updated_at FROM table WHERE id = %s`;
* if a row exists, `datetime.fromisoformat(change['updated_at'])` is
  evaluated — a malformed string raises (modelled by `ts = none`, propagated
  as `.error ()`), and otherwise the conflict check fires: when
  `existing_updated_at >= change_updated_at` and `our_node_id > source_peer`
  the local row is kept (`return True`); in every other case the method
  falls through to `_update_record`;
* if no row exists, `_insert_record` runs; a malformed `updated_at` string
  survives `_insert_record`'s inner `try/except pass` unparsed and the
  `INSERT` of that value into the timestamp column then fails at the
  database, which the per-row handler of the caller observes as an
  exception (also modelled by `.error ()`).
The returned `Bool` is the method's conflict-resolved flag. -/
def applySingleChange (ourNodeId sourcePeer : String) (store : Store)
    (c : Change) : Except Unit (Store × Bool) :=
  match c.idField with
  | none => .ok (store, false)
  | some rid =>
    if rid = 0 then .ok (store, false)
    else
      match store rid with
      | some row =>
        match c.ts with
        | none => .error ()
        | some t =>
          if t ≤ row.ua ∧ sourcePeer < ourNodeId then .ok (store, true)
          else .ok (updateRecord store rid ⟨t, c.data⟩, false)
      | none =>
        match c.ts with
        | none => .error ()
        | some t => .ok (insertRecord store rid ⟨t, c.data⟩, false)

/-- Accumulator of `DataSyncManager._apply_peer_changes`: the evolving store
together with `applied_count` and `conflict_count`. -/
structure ApplyAcc where
  store : Store
  applied : Nat
  conflicts : Nat

/-- One iteration of the per-row loop in
`DataSyncManager._apply_peer_changes`: the row application is wrapped in
`try/except`, so a failing row leaves the accumulator unchanged and the
loop continues with the next row. -/
def applyChangeStep (ourNodeId sourcePeer : String) (acc : ApplyAcc)
    (c : Change) : ApplyAcc :=
  match applySingleChange ourNodeId sourcePeer acc.store c with
  | .ok (s, conflict) =>
      { store := s, applied := acc.applied + 1,
        conflicts := acc.conflicts + (if conflict then 1 else 0) }
  | .error _ => acc

/-- Embeds `DataSyncManager._apply_peer_changes`: fold the per-row step over
the changeset (the early return on an empty `data` list and the surrounding
`BEGIN`/`COMMIT` do not alter the resulting store). -/
def applyPeerChanges (ourNodeId sourcePeer : String) (changes : List Change)
    (store : Store) : ApplyAcc :=
  changes.foldl (applyChangeStep ourNodeId sourcePeer)
    { store := store, applied := 0, conflicts := 0 }

/-- Store obtained by `_apply_peer_changes`. -/
def applyStore (ourNodeId sourcePeer : String) (changes : List Change)
    (store : Store) : Store :=
  (applyPeerChanges ourNodeId sourcePeer changes store).store

/-- Store reached by `_apply_single_change` (the store is left as it was when
the row application raises). -/
def resultStore (ourNodeId sourcePeer : String) (store : Store)
    (c : Change) : Store :=
  match applySingleChange ourNodeId sourcePeer store c with
  | .ok (s, _) => s
  | .error _ => store

/-- Concrete one-row store used in counterexamples: key 1 holds a row with
`updated_at = 200`. -/
def localStoreEx : Store :=
  fun k => if k = 1 then some ⟨200, [("name", "local")]⟩ else none

/-- Concrete incoming change used in counterexamples: key 1, strictly older
timestamp 100. -/
def olderChangeEx : Change :=
  ⟨some 1, some 100, [("name", "remote")]⟩

end P2P

namespace P2P

/-- Claim C1 (code bug): the conflict branch of `_apply_single_change` only
keeps the local row when `existing_updated_at >= change_updated_at` AND
`our_node_id > source_peer`.  With local `updated_at = 200`, incoming
`updated_at = 100` (local strictly newer) and local node id `"aaa"` smaller
than the source peer id `"zzz"`, the method falls through to
`_update_record` and overwrites the strictly newer local row with the older
incoming values — contradicting the specified rule that a strictly newer
local row is always kept regardless of node identity. -/
theorem apply_single_change_overwrites_strictly_newer_local :
    applySingleChange "aaa" "zzz" localStoreEx olderChangeEx =
      .ok (updateRecord localStoreEx 1 ⟨100, [("name", "remote")]⟩, false) ∧
    localStoreEx 1 = some ⟨200, [("name", "local")]⟩ ∧
    updateRecord localStoreEx 1 ⟨100, [("name", "remote")]⟩ 1 =
      some ⟨100, [("name", "remote")]⟩ ∧
    (100 : Nat) < 200 := by
  have hz : ¬ (("zzz" : String) < "aaa") := by
    rw [String.lt_iff_toList_lt]; decide
  have hcond : ¬((100 : Nat) ≤ 200 ∧ "zzz" < "aaa") := fun h => hz h.2
  refine ⟨?_, rfl, rfl, by decide⟩
  simp [applySingleChange, localStoreEx, olderChangeEx, hcond]
  decide

/-- Claim C2: when the incoming row's `updated_at` exactly equals the local
row's `updated_at` and the two node identities differ, `_apply_single_change`
keeps the local row exactly when the local node id is lexicographically
greater than the source peer id, and otherwise overwrites the local row with
the incoming values; consequently two nodes that exchange their versions of
such a row both end up holding the version belonging to the lexicographically
larger identity, independent of delivery direction. -/
theorem apply_single_change_tie_break_larger_identity_wins
    (idA idB : String) (storeA storeB : Store) (rid t : Nat)
    (dA dB : RowData) (hrid : rid ≠ 0) (hne : idA ≠ idB)
    (hA : storeA rid = some ⟨t, dA⟩) (hB : storeB rid = some ⟨t, dB⟩) :
    (idB < idA →
      applySingleChange idA idB storeA ⟨some rid, some t, dB⟩ =
        .ok (storeA, true)) ∧
    (¬ idB < idA →
      applySingleChange idA idB storeA ⟨some rid, some t, dB⟩ =
        .ok (updateRecord storeA rid ⟨t, dB⟩, false)) ∧
    resultStore idA idB storeA ⟨some rid, some t, dB⟩ rid =
      some ⟨t, if idB < idA then dA else dB⟩ ∧
    resultStore idB idA storeB ⟨some rid, some t, dA⟩ rid =
      some ⟨t, if idB < idA then dA else dB⟩ := by
  have happlyA : ∀ s : Store, s rid = some ⟨t, dA⟩ → ∀ d : RowData,
      applySingleChange idA idB s ⟨some rid, some t, d⟩ =
        if idB < idA then .ok (s, true)
        else .ok (updateRecord s rid ⟨t, d⟩, false) := by
    intro s hs d
    by_cases h : idB < idA
    · simp [applySingleChange, hrid, hs, h]
    · simp [applySingleChange, hrid, hs, h]
  have happlyB : ∀ d : RowData,
      applySingleChange idB idA storeB ⟨some rid, some t, d⟩ =
        if idA < idB then .ok (storeB, true)
        else .ok (updateRecord storeB rid ⟨t, d⟩, false) := by
    intro d
    by_cases h : idA < idB
    · simp [applySingleChange, hrid, hB, h]
    · simp [applySingleChange, hrid, hB, h]
  refine ⟨fun h => by rw [happlyA storeA hA dB, if_pos h],
          fun h => by rw [happlyA storeA hA dB, if_neg h], ?_, ?_⟩
  · by_cases h : idB < idA
    · simp [resultStore, happlyA storeA hA dB, h, hA]
    · simp [resultStore, happlyA storeA hA dB, h, updateRecord]
  · rcases lt_or_gt_of_ne hne with hlt | hgt
    · have h : ¬ idB < idA := not_lt_of_gt hlt
      simp [resultStore, happlyB dA, hlt, h, hB]
    · have h : ¬ idA < idB := not_lt_of_gt hgt
      simp [resultStore, happlyB dA, h, hgt, updateRecord]

/-- Store of node A in the tie-break witness. -/
def storeAEx : Store :=
  fun k => if k = 1 then some ⟨5, [("name", "fromA")]⟩ else none

/-- Store of node B in the tie-break witness. -/
def storeBEx : Store :=
  fun k => if k = 1 then some ⟨5, [("name", "fromB")]⟩ else none

/-- Write performed by a change when it reaches `_update_record` or
`_insert_record`: the row stored under key `k`, or `none` when the change
has a falsy id, a malformed timestamp, or targets another key. -/
def writeOf (c : Change) (k : Nat) : Option Row :=
  match c.idField, c.ts with
  | some rid, some t =>
      if rid = 0 then none
      else if rid = k then some ⟨t, c.data⟩ else none
  | _, _ => none

/-- Last write to key `k` performed by a changeset (later rows win). -/
def lastW : List Change → Nat → Option Row
  | [], _ => none
  | c :: cs, k =>
    match lastW cs k with
    | some r => some r
    | none => writeOf c k

theorem applyStore_eq_foldl (our src : String) (cs : List Change) (s : Store) :
    applyStore our src cs s = cs.foldl (resultStore our src) s := by
  have h : ∀ (cs : List Change) (acc : ApplyAcc),
      (cs.foldl (applyChangeStep our src) acc).store =
        cs.foldl (resultStore our src) acc.store := by
    intro cs
    induction cs with
    | nil => intro acc; rfl
    | cons c cs ih =>
      intro acc
      rw [List.foldl_cons, List.foldl_cons, ih]
      have hstep : (applyChangeStep our src acc c).store =
          resultStore our src acc.store c := by
        unfold applyChangeStep resultStore
        cases applySingleChange our src acc.store c with
        | ok p => rfl
        | error e => rfl
      rw [hstep]
  exact h cs _

theorem applySingleChange_no_id (our src : String) (s : Store) (c : Change)
    (hid : c.idField = none) :
    applySingleChange our src s c = .ok (s, false) := by
  unfold applySingleChange
  rw [hid]

theorem applySingleChange_zero_id (our src : String) (s : Store) (c : Change)
    (hid : c.idField = some 0) :
    applySingleChange our src s c = .ok (s, false) := by
  unfold applySingleChange
  rw [hid]
  rfl

theorem applySingleChange_malformed_ts (our src : String) (s : Store)
    (c : Change) (rid : Nat) (hid : c.idField = some rid) (hr : rid ≠ 0)
    (hts : c.ts = none) :
    applySingleChange our src s c = .error () := by
  unfold applySingleChange
  rw [hid]
  cases hs : s rid <;> simp [hr, hs, hts]

theorem applySingleChange_existing (our src : String) (s : Store) (c : Change)
    (rid t : Nat) (row : Row) (hid : c.idField = some rid) (hr : rid ≠ 0)
    (hts : c.ts = some t) (hs : s rid = some row) :
    applySingleChange our src s c =
      if t ≤ row.ua ∧ src < our then .ok (s, true)
      else .ok (updateRecord s rid ⟨t, c.data⟩, false) := by
  unfold applySingleChange
  rw [hid]
  simp [hr, hs, hts]

theorem applySingleChange_absent (our src : String) (s : Store) (c : Change)
    (rid t : Nat) (hid : c.idField = some rid) (hr : rid ≠ 0)
    (hts : c.ts = some t) (hs : s rid = none) :
    applySingleChange our src s c =
      .ok (insertRecord s rid ⟨t, c.data⟩, false) := by
  unfold applySingleChange
  rw [hid]
  simp [hr, hs, hts]

theorem resultStore_mono (our src : String) (hgt : src < our)
    (s : Store) (c : Change) (k : Nat) (row : Row) (hk : s k = some row) :
    ∃ row', resultStore our src s c k = some row' ∧ row.ua ≤ row'.ua := by
  rcases hid : c.idField with _ | rid
  · exact ⟨row, by simp [resultStore, applySingleChange_no_id our src s c hid, hk],
      le_refl _⟩
  · by_cases hr : rid = 0
    · subst hr
      exact ⟨row, by simp [resultStore, applySingleChange_zero_id our src s c hid, hk],
        le_refl _⟩
    · rcases hts : c.ts with _ | t
      · exact ⟨row,
          by simp [resultStore, applySingleChange_malformed_ts our src s c rid hid hr hts, hk],
          le_refl _⟩
      · rcases hs : s rid with _ | row0
        · have hkr : k ≠ rid := fun h => by rw [h, hs] at hk; exact Option.noConfusion hk
          refine ⟨row, ?_, le_refl _⟩
          simp [resultStore, applySingleChange_absent our src s c rid t hid hr hts hs,
            insertRecord, hs, updateRecord, hkr, hk]
        · by_cases hc : t ≤ row0.ua ∧ src < our
          · refine ⟨row, ?_, le_refl _⟩
            unfold resultStore
            rw [applySingleChange_existing our src s c rid t row0 hid hr hts hs,
              if_pos hc]
            exact hk
          · have ht : row0.ua < t := by
              by_contra hle
              exact hc ⟨le_of_not_lt hle, hgt⟩
            by_cases hkr : k = rid
            · subst hkr
              have hrow : row = row0 := Option.some.inj ((hk.symm).trans hs)
              refine ⟨⟨t, c.data⟩, ?_, ?_⟩
              · unfold resultStore
                rw [applySingleChange_existing our src s c k t row0 hid hr hts hs,
                  if_neg hc]
                simp [updateRecord]
              · rw [hrow]
                exact le_of_lt ht
            · refine ⟨row, ?_, le_refl _⟩
              unfold resultStore
              rw [applySingleChange_existing our src s c rid t row0 hid hr hts hs,
                if_neg hc]
              simp [updateRecord, hkr, hk]

theorem resultStore_hit (our src : String)
    (s : Store) (c : Change) (rid t : Nat)
    (hid : c.idField = some rid) (hr : rid ≠ 0) (hts : c.ts = some t) :
    ∃ row', resultStore our src s c rid = some row' ∧ t ≤ row'.ua := by
  rcases hs : s rid with _ | row0
  · refine ⟨⟨t, c.data⟩, ?_, le_refl _⟩
    unfold resultStore
    rw [applySingleChange_absent our src s c rid t hid hr hts hs]
    simp [insertRecord, hs, updateRecord]
  · by_cases hc : t ≤ row0.ua ∧ src < our
    · refine ⟨row0, ?_, hc.1⟩
      unfold resultStore
      rw [applySingleChange_existing our src s c rid t row0 hid hr hts hs, if_pos hc]
      exact hs
    · refine ⟨⟨t, c.data⟩, ?_, le_refl _⟩
      unfold resultStore
      rw [applySingleChange_existing our src s c rid t row0 hid hr hts hs, if_neg hc]
      simp [updateRecord]

theorem foldl_resultStore_mono (our src : String) (hgt : src < our)
    (cs : List Change) (s : Store) (k : Nat) (row : Row) (hk : s k = some row) :
    ∃ row', cs.foldl (resultStore our src) s k = some row' ∧ row.ua ≤ row'.ua := by
  induction cs generalizing s row with
  | nil => exact ⟨row, hk, le_refl _⟩
  | cons c cs ih =>
    obtain ⟨row1, h1, hle1⟩ := resultStore_mono our src hgt s c k row hk
    obtain ⟨row2, h2, hle2⟩ := ih (resultStore our src s c) row1 h1
    exact ⟨row2, h2, le_trans hle1 hle2⟩

theorem foldl_resultStore_hit (our src : String) (hgt : src < our)
    (cs : List Change) (s : Store) (c : Change) (hmem : c ∈ cs) (rid t : Nat)
    (hid : c.idField = some rid) (hr : rid ≠ 0) (hts : c.ts = some t) :
    ∃ row', cs.foldl (resultStore our src) s rid = some row' ∧ t ≤ row'.ua := by
  induction cs generalizing s with
  | nil => exact absurd hmem (List.not_mem_nil c)
  | cons c0 cs ih =>
    rcases List.mem_cons.mp hmem with heq | htail
    · subst heq
      obtain ⟨row1, h1, hle1⟩ := resultStore_hit our src s c rid t hid hr hts
      obtain ⟨row2, h2, hle2⟩ :=
        foldl_resultStore_mono our src hgt cs (resultStore our src s c) rid row1 h1
      exact ⟨row2, h2, le_trans hle1 hle2⟩
    · exact ih (resultStore our src s c0) htail

theorem foldl_resultStore_fixed (our src : String) (hgt : src < our)
    (cs : List Change) (s : Store)
    (hsat : ∀ c ∈ cs, ∀ rid t, c.idField = some rid → rid ≠ 0 →
      c.ts = some t → ∃ row, s rid = some row ∧ t ≤ row.ua) :
    cs.foldl (resultStore our src) s = s := by
  induction cs with
  | nil => rfl
  | cons c cs ih =>
    have hstep : resultStore our src s c = s := by
      rcases hid : c.idField with _ | rid
      · unfold resultStore
        rw [applySingleChange_no_id our src s c hid]
      · by_cases hr : rid = 0
        · subst hr
          unfold resultStore
          rw [applySingleChange_zero_id our src s c hid]
        · rcases hts : c.ts with _ | t
          · unfold resultStore
            rw [applySingleChange_malformed_ts our src s c rid hid hr hts]
          · obtain ⟨row, hrow, hle⟩ :=
              hsat c (List.mem_cons_self c cs) rid t hid hr hts
            unfold resultStore
            rw [applySingleChange_existing our src s c rid t row hid hr hts hrow,
              if_pos ⟨hle, hgt⟩]
    rw [List.foldl_cons, hstep]
    exact ih (fun c' hc' => hsat c' (List.mem_cons_of_mem c hc'))

theorem resultStore_as_write (our src : String) (hle : ¬ src < our)
    (s : Store) (c : Change) (k : Nat) :
    resultStore our src s c k =
      match writeOf c k with
      | some r => some r
      | none => s k := by
  rcases hid : c.idField with _ | rid
  · unfold resultStore
    rw [applySingleChange_no_id our src s c hid]
    simp [writeOf, hid]
  · by_cases hr : rid = 0
    · subst hr
      unfold resultStore
      rw [applySingleChange_zero_id our src s c hid]
      rcases hts : c.ts with _ | t <;> simp [writeOf, hid, hts]
    · rcases hts : c.ts with _ | t
      · unfold resultStore
        rw [applySingleChange_malformed_ts our src s c rid hid hr hts]
        simp [writeOf, hid, hts]
      · have hwrite : writeOf c k =
            if rid = k then some ⟨t, c.data⟩ else none := by
          simp [writeOf, hid, hts, hr]
        rcases hs : s rid with _ | row0
        · unfold resultStore
          rw [applySingleChange_absent our src s c rid t hid hr hts hs, hwrite]
          by_cases hkr : rid = k
          · subst hkr
            simp [insertRecord, hs, updateRecord]
          · have hkr' : ¬ k = rid := fun h => hkr h.symm
            rw [if_neg hkr]
            simp [insertRecord, hs, updateRecord, hkr']
        · have hc : ¬ (t ≤ row0.ua ∧ src < our) := fun h => hle h.2
          unfold resultStore
          rw [applySingleChange_existing our src s c rid t row0 hid hr hts hs,
            if_neg hc, hwrite]
          by_cases hkr : rid = k
          · subst hkr
            simp [updateRecord]
          · have hkr' : ¬ k = rid := fun h => hkr h.symm
            rw [if_neg hkr]
            simp [updateRecord, hkr']

theorem foldl_resultStore_lastW (our src : String) (hle : ¬ src < our)
    (cs : List Change) (s : Store) (k : Nat) :
    cs.foldl (resultStore our src) s k =
      match lastW cs k with
      | some r => some r
      | none => s k := by
  induction cs generalizing s with
  | nil => rfl
  | cons c cs ih =>
    rw [List.foldl_cons, ih]
    simp only [lastW]
    rcases hlw : lastW cs k with _ | r
    · exact resultStore_as_write our src hle s c k
    · rfl

/-- Claim C4: applying the same changeset twice through
`_apply_peer_changes` leaves the stored table exactly as after applying it
once — the conflict-resolution procedure is idempotent under duplicate
delivery of a whole changeset, for every changeset, every starting store
and every pair of node identities. -/
theorem apply_peer_changes_idempotent (our src : String)
    (cs : List Change) (s : Store) :
    applyStore our src cs (applyStore our src cs s) =
      applyStore our src cs s := by
  rw [applyStore_eq_foldl, applyStore_eq_foldl]
  by_cases hgt : src < our
  · apply foldl_resultStore_fixed our src hgt
    intro c hmem rid t hid hr hts
    obtain ⟨row, hrow, hle⟩ :=
      foldl_resultStore_hit our src hgt cs s c hmem rid t hid hr hts
    exact ⟨row, hrow, hle⟩
  · funext k
    rw [foldl_resultStore_lastW our src hgt, foldl_resultStore_lastW our src hgt]
    rcases hlw : lastW cs k with _ | r
    · rfl
    · rfl

/-- Claim C8: a row whose application raises (here: a malformed
`updated_at` string, which `datetime.fromisoformat` rejects) is skipped by
the per-row `try/except` of `_apply_peer_changes`, and every remaining row
of the same changeset is still applied — the outcome (store, applied count
and conflict count) equals that of the changeset with the failing row
removed. -/
theorem apply_peer_changes_skips_failing_row (our src : String)
    (xs ys : List Change) (c : Change) (rid : Nat) (s : Store)
    (hid : c.idField = some rid) (hr : rid ≠ 0) (hts : c.ts = none) :
    applyPeerChanges our src (xs ++ c :: ys) s =
      applyPeerChanges our src (xs ++ ys) s := by
  unfold applyPeerChanges
  rw [List.foldl_append, List.foldl_append, List.foldl_cons]
  have hstep : ∀ acc : ApplyAcc, applyChangeStep our src acc c = acc := by
    intro acc
    unfold applyChangeStep
    rw [applySingleChange_malformed_ts our src acc.store c rid hid hr hts]
  rw [hstep]

/-- Changeset used in the C8 witness: a valid row, then a row whose
`updated_at` string is malformed, then another valid row. -/
def goodChange1 : Change := ⟨some 1, some 10, [("name", "one")]⟩

/-- Malformed row of the C8 witness (its timestamp string does not parse). -/
def badChange : Change := ⟨some 2, none, [("name", "bad")]⟩

/-- Second valid row of the C8 witness. -/
def goodChange2 : Change := ⟨some 3, some 30, [("name", "three")]⟩

/-- Witness for claim C8: on the empty store, the three-row changeset with
the malformed middle row produces exactly the state of the two-row
changeset without it. -/
theorem apply_peer_changes_skips_failing_row_witness :
    applyPeerChanges "nodeA" "nodeB" [goodChange1, badChange, goodChange2]
        (fun _ => none) =
      applyPeerChanges "nodeA" "nodeB" [goodChange1, goodChange2]
        (fun _ => none) :=
  apply_peer_changes_skips_failing_row "nodeA" "nodeB" [goodChange1]
    [goodChange2] badChange 2 (fun _ => none) rfl (by decide) rfl

/-- Witness for claim C2 at node ids `"bbb"` (local) and `"aaa"` (source),
key 1 and timestamp 5 on both sides. -/
theorem apply_single_change_tie_break_witness :
    (("aaa" : String) < "bbb" →
      applySingleChange "bbb" "aaa" storeAEx ⟨some 1, some 5, [("name", "fromB")]⟩ =
        .ok (storeAEx, true)) ∧
    (¬ ("aaa" : String) < "bbb" →
      applySingleChange "bbb" "aaa" storeAEx ⟨some 1, some 5, [("name", "fromB")]⟩ =
        .ok (updateRecord storeAEx 1 ⟨5, [("name", "fromB")]⟩, false)) ∧
    resultStore "bbb" "aaa" storeAEx ⟨some 1, some 5, [("name", "fromB")]⟩ 1 =
      some ⟨5, if ("aaa" : String) < "bbb" then [("name", "fromA")] else [("name", "fromB")]⟩ ∧
    resultStore "aaa" "bbb" storeBEx ⟨some 1, some 5, [("name", "fromA")]⟩ 1 =
      some ⟨5, if ("aaa" : String) < "bbb" then [("name", "fromA")] else [("name", "fromB")]⟩ :=
  apply_single_change_tie_break_larger_identity_wins "bbb" "aaa" storeAEx storeBEx
    1 5 [("name", "fromA")] [("name", "fromB")] (by decide) (by decide) rfl rfl

/-- Outcome of `DataSyncManager._send_changes_to_peer` given the HTTP status
the peer's apply endpoint answered with: the parsed response is returned on
200, and every other status — and every raised exception — is only logged;
the method never propagates a failure to its caller. -/
def sendChangesToPeer (respStatus : Nat) : Option Unit :=
  if respStatus = 200 then some () else none

/-- State of one (peer, table) pair inside `DataSyncManager`: the sync
cursor `last_sync_times[peer_id][table]` and the local table. -/
structure SyncTableState where
  cursor : Option Nat
  store : Store

/-- Embeds `DataSyncManager._bidirectional_sync_table` for one
(peer, table) round.  The two changesets (ours and the peer's) are the
fetched inputs; `pushStatus` is the HTTP status of the POST issued by
`_send_changes_to_peer` when our changes are non-empty (its return value is
discarded at line 99); the peer's changes are applied locally when
non-empty; and line 109 then assigns
`last_sync_times[peer_id][table] = current_time` unconditionally. -/
def bidirectionalSyncTable (ourNodeId peerId : String)
    (ourChanges peerChanges : List Change) (pushStatus : Nat) (now : Nat)
    (st : SyncTableState) : SyncTableState :=
  let _pushResult :=
    if ourChanges ≠ [] then some (sendChangesToPeer pushStatus) else none
  let store' :=
    if peerChanges ≠ [] then applyStore ourNodeId peerId peerChanges st.store
    else st.store
  { cursor := some now, store := store' }

/-- Claim C3 (code bug): a round whose push to the peer's apply endpoint
fails (HTTP 500, swallowed inside `_send_changes_to_peer`) still advances
the sync cursor from 100 to the current time 300, exactly as a clean round
would, because the cursor assignment is unconditional. -/
theorem bidirectional_sync_advances_cursor_on_failed_push :
    sendChangesToPeer 500 = none ∧
    (bidirectionalSyncTable "nodeA" "nodeB" [goodChange1] [] 500 300
        { cursor := some 100, store := fun _ => none }).cursor = some 300 := by
  constructor
  · rfl
  · rfl

/-- An HTTP error as raised by FastAPI's `HTTPException`. -/
structure HTTPError where
  status : Nat
  deriving DecidableEq, Repr

/-- Request body of `POST /p2p/apply-changes/{table}`: the changeset rows
plus the optional `count` and `source_node` fields of the JSON dict. -/
structure ApplyBody where
  data : List Change
  count : Option Nat
  sourceNode : Option String

/-- JSON answer of a successful `apply_table_changes` call. -/
structure ApplyResponse where
  rowsAffected : Nat
  sourcePeer : String
  deriving DecidableEq, Repr

/-- The `try` block of `apply_table_changes` (routes/p2p_sync.py lines
107-127): raise `HTTPException(400)` for a table outside `sync_tables`
before any storage access, otherwise apply the changes with
`source_node` (default `'unknown'`) as the source peer and answer with
`rows_affected = changes.get('count', 0)`. -/
def applyTableChangesTryBody (syncTables : List String) (ourNodeId : String)
    (table : String) (body : ApplyBody) (store : Store) :
    Except HTTPError (ApplyResponse × Store) :=
  if table ∉ syncTables then .error ⟨400⟩
  else
    let src := body.sourceNode.getD "unknown"
    let acc := applyPeerChanges ourNodeId src body.data store
    .ok ({ rowsAffected := body.count.getD 0, sourcePeer := src }, acc.store)

/-- Embeds the whole `apply_table_changes` handler: the `try` block above
is wrapped in `except Exception as e: raise HTTPException(500)`, and
FastAPI's `HTTPException` derives from `Exception`, so the 400 raised
inside the `try` is caught by the blanket handler and replaced by a 500.
Returns the HTTP status, the response when one is produced, and the
resulting store. -/
def applyTableChangesEndpoint (syncTables : List String) (ourNodeId : String)
    (table : String) (body : ApplyBody) (store : Store) :
    Nat × Option ApplyResponse × Store :=
  match applyTableChangesTryBody syncTables ourNodeId table body store with
  | .ok (resp, store') => (200, some resp, store')
  | .error _ => (500, none, store)

/-- Embeds `get_table_changes` (GET /p2p/table-changes/{table}) down to its
HTTP status: inside the `try`, a table outside `sync_tables` raises
`HTTPException(400)`, a `since` parameter that `datetime.fromisoformat`
rejects raises `HTTPException(400)`, and otherwise the changes are fetched
and returned (200); the surrounding `except Exception` turns every raised
`HTTPException` into a 500. -/
def getTableChangesEndpoint (syncTables : List String) (table : String)
    (sinceGiven sinceParses : Bool) : Nat :=
  match (if table ∉ syncTables then Except.error (⟨400⟩ : HTTPError)
         else if sinceGiven ∧ ¬ sinceParses then Except.error ⟨400⟩
         else Except.ok ()) with
  | .ok _ => 200
  | .error _ => 500

/-- Claim C7 (code bug): a request naming a table outside the replication
set does short-circuit before any storage operation — the `try` body raises
`HTTPException(400)` first and the store is returned unchanged — but the
response status actually sent is 500, not 400, because the blanket
`except Exception` of each handler catches the `HTTPException` and
re-raises it with status 500. -/
theorem invalid_table_rejected_with_500_not_400 :
    getTableChangesEndpoint ["users", "products"] "sessions" false true = 500 ∧
    applyTableChangesTryBody ["users", "products"] "nodeA" "sessions"
        ⟨[goodChange1], some 1, some "nodeB"⟩ localStoreEx =
      .error ⟨400⟩ ∧
    applyTableChangesEndpoint ["users", "products"] "nodeA" "sessions"
        ⟨[goodChange1], some 1, some "nodeB"⟩ localStoreEx =
      (500, none, localStoreEx) ∧
    (500 : Nat) ≠ 400 := by
  refine ⟨?_, ?_, ?_, by decide⟩
  · rfl
  · rfl
  · rfl

/-- Claim C10: for every request accepted by `apply_table_changes` the
reported `rows_affected` is `changes.get('count', 0)` — the `count` field
of the request body, defaulting to 0 — independent of how many rows the
apply procedure actually wrote. -/
theorem apply_changes_reports_request_count (syncTables : List String)
    (ourNodeId table : String) (body : ApplyBody) (store : Store)
    (hmem : table ∈ syncTables) :
    applyTableChangesEndpoint syncTables ourNodeId table body store =
      (200,
       some { rowsAffected := body.count.getD 0,
              sourcePeer := body.sourceNode.getD "unknown" },
       applyStore ourNodeId (body.sourceNode.getD "unknown") body.data store) := by
  unfold applyTableChangesEndpoint applyTableChangesTryBody
  rw [if_neg (not_not_intro hmem)]
  rfl

/-- Witness for claim C10: a body carrying `count = 5` and an empty row
list is answered with `rows_affected = 5` although no row is written. -/
theorem apply_changes_reports_request_count_witness :
    applyTableChangesEndpoint ["users"] "nodeA" "users"
        ⟨[], some 5, some "nodeB"⟩ (fun _ => none) =
      (200, some { rowsAffected := 5, sourcePeer := "nodeB" },
       applyStore "nodeA" "nodeB" [] (fun _ => none)) :=
  apply_changes_reports_request_count ["users"] "nodeA" "users"
    ⟨[], some 5, some "nodeB"⟩ (fun _ => none) (by decide)

/-- A "tables changed" notification as built by
`DataSyncManager.notify_peers_of_changes`. -/
structure ChangeNotification where
  sourcePeer : String
  tables : List String
  deriving DecidableEq, Repr

/-- A targeted sync task handed to `asyncio.create_task`
(`_sync_specific_tables_with_peers`), identified by the peer ids it targets
and the tables it syncs. -/
structure SyncTask where
  peers : List String
  tables : List String
  deriving DecidableEq, Repr

/-- Effect of `notify_peers_of_changes`: one notification posted (fire and
forget) to every currently active peer.  Peers are identified by their
`peer_id`. -/
def notifyPeersOfChanges (ourNodeId : String) (activePeers : List String)
    (tables : List String) : List (String × ChangeNotification) :=
  activePeers.map (fun p => (p, ⟨ourNodeId, tables⟩))

/-- First definition of `trigger_sync_after_data_change` in the class body
(sync_manager.py lines 534-549): notify every active peer, then schedule an
immediate targeted sync task only when `sync_interval < 60`. -/
def triggerSyncAfterDataChangeFirstDef (ourNodeId : String)
    (activePeers : List String) (syncInterval : Nat) (table : String) :
    List (String × ChangeNotification) × List SyncTask :=
  (notifyPeersOfChanges ourNodeId activePeers [table],
   if syncInterval < 60 ∧ activePeers ≠ [] then [⟨activePeers, [table]⟩]
   else [])

/-- Second definition of `trigger_sync_after_data_change` in the same class
body (lines 559-573): send no notification at all and schedule an immediate
targeted sync task whenever at least one active peer exists, regardless of
the configured interval. -/
def triggerSyncAfterDataChangeSecondDef (activePeers : List String)
    (table : String) :
    List (String × ChangeNotification) × List SyncTask :=
  ([], if activePeers ≠ [] then [⟨activePeers, [table]⟩] else [])

/-- The method that actually runs after a local mutation: Python binds a
class attribute to the last definition in the class body, so the second
definition shadows the first. -/
def triggerSyncAfterDataChange (ourNodeId : String)
    (activePeers : List String) (syncInterval : Nat) (table : String) :
    List (String × ChangeNotification) × List SyncTask :=
  triggerSyncAfterDataChangeSecondDef activePeers table

/-- Claim C6 counterexample: with one active peer and a low-latency
interval of 30 s, the effective trigger procedure sends no notification at
all (the shadowed first definition would have notified the peer), so the
claimed "notification to every currently active peer" fails. -/
theorem trigger_sync_sends_no_notifications :
    (triggerSyncAfterDataChange "nodeA" ["peerB"] 30 "products").1 = [] ∧
    (["peerB"] : List String) ≠ [] ∧
    (triggerSyncAfterDataChangeFirstDef "nodeA" ["peerB"] 30 "products").1 =
      [("peerB", ⟨"nodeA", ["products"]⟩)] := by
  refine ⟨rfl, ?_, rfl⟩
  decide

/-- Claim C6 as amended: the definition of
`trigger_sync_after_data_change` that survives class-body shadowing sends
no notification and, whenever at least one active peer exists, schedules an
immediate targeted sync task for the changed table with all active peers,
regardless of the configured sync interval. -/
theorem trigger_sync_effective_behavior (ourNodeId : String)
    (activePeers : List String) (syncInterval : Nat) (table : String)
    (hne : activePeers ≠ []) :
    (triggerSyncAfterDataChange ourNodeId activePeers syncInterval table).1 =
      [] ∧
    (triggerSyncAfterDataChange ourNodeId activePeers syncInterval table).2 =
      [⟨activePeers, [table]⟩] := by
  refine ⟨rfl, ?_⟩
  simp [triggerSyncAfterDataChange, triggerSyncAfterDataChangeSecondDef, hne]

/-- Witness for the amended claim C6 at one active peer and an interval of
120 s (not low-latency, yet the targeted task is still scheduled). -/
theorem trigger_sync_effective_behavior_witness :
    (triggerSyncAfterDataChange "nodeA" ["peerB"] 120 "reviews").1 = [] ∧
    (triggerSyncAfterDataChange "nodeA" ["peerB"] 120 "reviews").2 =
      [⟨["peerB"], ["reviews"]⟩] :=
  trigger_sync_effective_behavior "nodeA" ["peerB"] 120 "reviews" (by decide)

/-- A peer record (`PeerInfo` in p2p_sync/config.py), restricted to the
fields the registry and discovery logic reads. -/
structure PeerInfo where
  host : String
  port : Nat
  lastSeen : Nat
  status : String
  deriving DecidableEq, Repr

/-- The registry `P2PConfig.peers`, a Python dict keyed by `peer_id`,
modelled as an association list in insertion order. -/
abbrev Registry := List (String × PeerInfo)

/-- Dict access `peers.get(peer_id)`. -/
def lookupPeer (reg : Registry) (pid : String) : Option PeerInfo :=
  (reg.find? (fun kv => decide (kv.1 = pid))).map Prod.snd

/-- Dict upsert `peers[peer_id] = peer` (`P2PConfig.add_peer`): replace the
record in place when the key exists, append otherwise. -/
def dictInsert (pid : String) (p : PeerInfo) (reg : Registry) : Registry :=
  if reg.any (fun kv => decide (kv.1 = pid)) then
    reg.map (fun kv => if kv.1 = pid then (pid, p) else kv)
  else reg ++ [(pid, p)]

/-- Embeds `P2PConfig.remove_peer`: delete the key when present, no-op
otherwise. -/
def removePeer (pid : String) (reg : Registry) : Registry :=
  reg.filter (fun kv => decide (kv.1 ≠ pid))

/-- Embeds `P2PConfig.update_peer_status`: when the key is present, set its
status and refresh `last_seen` to now; no-op otherwise. -/
def updatePeerStatus (reg : Registry) (pid newStatus : String)
    (now : Nat) : Registry :=
  if reg.any (fun kv => decide (kv.1 = pid)) then
    reg.map (fun kv =>
      if kv.1 = pid then (kv.1, { kv.2 with status := newStatus, lastSeen := now })
      else kv)
  else reg

/-- Embeds `P2PConfig.get_active_peers`. -/
def getActivePeers (reg : Registry) : Registry :=
  reg.filter (fun kv => decide (kv.2.status = "active"))

/-- Outcome of one health probe (`GET /p2p/status` with a 10 s timeout) in
`PeerDiscovery._check_peer_health`: HTTP 200, a non-200 HTTP response, or a
raised exception (connection refused, timeout, ...). -/
inductive ProbeResult where
  | ok
  | httpError (code : Nat)
  | unreachable
  deriving DecidableEq, Repr

/-- One iteration of the loop in `_check_peer_health` over the registry
items, acting on the pair (registry, collected eviction list): HTTP 200
refreshes the peer as active and a non-200 response marks it inactive (both
via `update_peer_status`, which also sets `last_seen = now`); a raised
probe leaves the record untouched and appends the peer to the eviction list
when more than 2 minutes (120 s) have passed since the record's
`last_seen` (the record of an unreachable peer is never updated during the
loop, so its `last_seen` is the one captured at iteration). -/
def healthStep (now : Nat) (probe : String → ProbeResult)
    (acc : Registry × List String) (kv : String × PeerInfo) :
    Registry × List String :=
  match probe kv.1 with
  | .ok => (updatePeerStatus acc.1 kv.1 "active" now, acc.2)
  | .httpError _ => (updatePeerStatus acc.1 kv.1 "inactive" now, acc.2)
  | .unreachable =>
      if kv.2.lastSeen + 120 < now then (acc.1, acc.2 ++ [kv.1]) else acc

/-- Embeds `PeerDiscovery._check_peer_health`: run the probe loop over all
registry items, then remove every collected peer id from the registry
(`remove_peer`) and from the discovered set. -/
def checkPeerHealth (now : Nat) (probe : String → ProbeResult)
    (reg : Registry) (discovered : List String) : Registry × List String :=
  let res := reg.foldl (healthStep now probe) (reg, [])
  (res.1.filter (fun kv => decide (kv.1 ∉ res.2)),
   discovered.filter (fun pid => decide (pid ∉ res.2)))

/-- Peer record used in the C5 counterexample: still marked active, last
seen at time 100. -/
def peerP1 : PeerInfo := ⟨"10.0.0.5", 8000, 100, "active"⟩

/-- Claim C5 counterexample: at time 150 (within the 2-minute grace
period), a health cycle in which the previously active peer's probe raises
leaves the peer's record completely untouched — its status is still
"active" and it still appears in `get_active_peers()` — although the claim
says a previously active peer whose probes start failing is marked inactive
within one health-check cycle. -/
theorem health_check_leaves_failing_peer_active :
    checkPeerHealth 150 (fun _ => ProbeResult.unreachable)
        [("p1", peerP1)] ["p1"] = ([("p1", peerP1)], ["p1"]) ∧
    peerP1.status = "active" ∧
    getActivePeers (checkPeerHealth 150 (fun _ => ProbeResult.unreachable)
        [("p1", peerP1)] ["p1"]).1 = [("p1", peerP1)] := by
  refine ⟨?_, rfl, ?_⟩ <;> rfl

/-- Peers collected for eviction by the health-check loop: those whose
probe raised and whose `last_seen` lies more than 120 s in the past. -/
def stalePred (now : Nat) (probe : String → ProbeResult)
    (kv : String × PeerInfo) : Bool :=
  decide (probe kv.1 = ProbeResult.unreachable) &&
    decide (kv.2.lastSeen + 120 < now)

theorem find?_key_eq {reg : Registry} {pid : String} {kv : String × PeerInfo}
    (h : reg.find? (fun kv => decide (kv.1 = pid)) = some kv) : kv.1 = pid := by
  have := List.find?_some h
  simpa using this

theorem find?_map_keypres (f : String × PeerInfo → String × PeerInfo)
    (hf : ∀ kv, (f kv).1 = kv.1) (reg : Registry) (pid : String) :
    (reg.map f).find? (fun kv => decide (kv.1 = pid)) =
      (reg.find? (fun kv => decide (kv.1 = pid))).map f := by
  induction reg with
  | nil => rfl
  | cons kv reg ih =>
    by_cases h : kv.1 = pid
    · rw [List.map_cons,
        List.find?_cons_of_pos _ (by simp [hf kv, h]),
        List.find?_cons_of_pos _ (by simp [h])]
      rfl
    · rw [List.map_cons,
        List.find?_cons_of_neg _ (by simp [hf kv, h]),
        List.find?_cons_of_neg _ (by simp [h]), ih]

theorem updatePeerStatus_lookup_other (reg : Registry)
    (pid qid newStatus : String) (now : Nat) (hne : qid ≠ pid) :
    lookupPeer (updatePeerStatus reg pid newStatus now) qid =
      lookupPeer reg qid := by
  unfold updatePeerStatus lookupPeer
  by_cases hany : reg.any (fun kv => decide (kv.1 = pid))
  · rw [if_pos hany]
    rw [find?_map_keypres _ (fun kv => by by_cases h : kv.1 = pid <;> simp [h]) reg qid]
    rcases hf : reg.find? (fun kv => decide (kv.1 = qid)) with _ | kv
    · rw [hf]
      rfl
    · rw [hf]
      have hk : kv.1 = qid := find?_key_eq hf
      have hkp : ¬ kv.1 = pid := by rw [hk]; exact hne
      simp [hkp]
  · rw [if_neg hany]

theorem updatePeerStatus_lookup_self (reg : Registry)
    (pid newStatus : String) (now : Nat) (p : PeerInfo)
    (h : lookupPeer reg pid = some p) :
    lookupPeer (updatePeerStatus reg pid newStatus now) pid =
      some { p with status := newStatus, lastSeen := now } := by
  unfold lookupPeer at h
  rcases hf : reg.find? (fun kv => decide (kv.1 = pid)) with _ | kv
  · rw [hf] at h
    exact absurd h (by simp)
  · rw [hf] at h
    have hp : kv.2 = p := by simpa using h
    have hk : kv.1 = pid := find?_key_eq hf
    have hany : reg.any (fun kv => decide (kv.1 = pid)) := by
      rw [List.any_eq_true]
      exact ⟨kv, List.mem_of_find?_eq_some hf, by simp [hk]⟩
    unfold updatePeerStatus lookupPeer
    rw [if_pos hany,
      find?_map_keypres _ (fun kv => by by_cases h : kv.1 = pid <;> simp [h]) reg pid,
      hf]
    simp [hk, hp]

theorem updatePeerStatus_keys (reg : Registry) (pid newStatus : String)
    (now : Nat) :
    (updatePeerStatus reg pid newStatus now).map Prod.fst =
      reg.map Prod.fst := by
  unfold updatePeerStatus
  by_cases hany : reg.any (fun kv => decide (kv.1 = pid))
  · rw [if_pos hany, List.map_map]
    refine List.map_congr_left (fun kv _ => ?_)
    by_cases h : kv.1 = pid <;> simp [h]
  · rw [if_neg hany]

theorem healthStep_fst_keys (now : Nat) (probe : String → ProbeResult)
    (acc : Registry × List String) (kv : String × PeerInfo) :
    ((healthStep now probe acc kv).1).map Prod.fst = acc.1.map Prod.fst := by
  unfold healthStep
  rcases hp : probe kv.1 with _ | code | _
  · exact updatePeerStatus_keys acc.1 kv.1 "active" now
  · exact updatePeerStatus_keys acc.1 kv.1 "inactive" now
  · by_cases hs : kv.2.lastSeen + 120 < now <;> simp [hs]

theorem foldl_health_fst_keys (now : Nat) (probe : String → ProbeResult)
    (l : List (String × PeerInfo)) (acc : Registry × List String) :
    ((l.foldl (healthStep now probe) acc).1).map Prod.fst =
      acc.1.map Prod.fst := by
  induction l generalizing acc with
  | nil => rfl
  | cons kv l ih => rw [List.foldl_cons, ih, healthStep_fst_keys]

theorem healthStep_lookup_other (now : Nat) (probe : String → ProbeResult)
    (acc : Registry × List String) (kv : String × PeerInfo) (pid : String)
    (hne : kv.1 ≠ pid) :
    lookupPeer (healthStep now probe acc kv).1 pid = lookupPeer acc.1 pid := by
  unfold healthStep
  rcases hp : probe kv.1 with _ | code | _
  · exact updatePeerStatus_lookup_other acc.1 kv.1 pid "active" now
      (fun h => hne h.symm)
  · exact updatePeerStatus_lookup_other acc.1 kv.1 pid "inactive" now
      (fun h => hne h.symm)
  · by_cases hs : kv.2.lastSeen + 120 < now <;> simp [hs]

theorem foldl_health_lookup_other (now : Nat) (probe : String → ProbeResult)
    (l : List (String × PeerInfo)) (acc : Registry × List String)
    (pid : String) (hne : ∀ kv ∈ l, kv.1 ≠ pid) :
    lookupPeer ((l.foldl (healthStep now probe) acc).1) pid =
      lookupPeer acc.1 pid := by
  induction l generalizing acc with
  | nil => rfl
  | cons kv l ih =>
    rw [List.foldl_cons, ih _ (fun kv hkv => hne kv (List.mem_cons_of_mem _ hkv)),
      healthStep_lookup_other now probe acc kv pid
        (hne kv (List.mem_cons_self kv l))]

theorem foldl_health_snd (now : Nat) (probe : String → ProbeResult)
    (l : List (String × PeerInfo)) (acc : Registry × List String) :
    (l.foldl (healthStep now probe) acc).2 =
      acc.2 ++ (l.filter (stalePred now probe)).map Prod.fst := by
  induction l generalizing acc with
  | nil => simp
  | cons kv l ih =>
    rw [List.foldl_cons, ih]
    rcases hp : probe kv.1 with _ | code | _
    · have : stalePred now probe kv = false := by simp [stalePred, hp]
      simp [healthStep, hp, List.filter_cons, this]
    · have : stalePred now probe kv = false := by simp [stalePred, hp]
      simp [healthStep, hp, List.filter_cons, this]
    · by_cases hs : kv.2.lastSeen + 120 < now
      · have : stalePred now probe kv = true := by simp [stalePred, hp, hs]
        simp [healthStep, hp, hs, List.filter_cons, this]
      · have : stalePred now probe kv = false := by simp [stalePred, hp, hs]
        simp [healthStep, hp, hs, List.filter_cons, this]

theorem find?_of_nodup_mem {reg : Registry} {pid : String} {p : PeerInfo}
    (hnodup : (reg.map Prod.fst).Nodup) (hmem : (pid, p) ∈ reg) :
    reg.find? (fun kv => decide (kv.1 = pid)) = some (pid, p) := by
  rcases hf : reg.find? (fun kv => decide (kv.1 = pid)) with _ | kv
  · rw [List.find?_eq_none] at hf
    exact absurd (by simp : decide ((pid, p).1 = pid) = true) (hf _ hmem)
  · have hk : kv.1 = pid := find?_key_eq hf
    have hkv : kv ∈ reg := List.mem_of_find?_eq_some hf
    have : kv = (pid, p) :=
      List.inj_on_of_nodup_map hnodup hkv hmem (by simp [hk])
    rw [hf, this]

theorem find?_filter_of_imp {α : Type} (p q : α → Bool)
    (himp : ∀ x, p x = true → q x = true) (l : List α) :
    (l.filter q).find? p = l.find? p := by
  induction l with
  | nil => rfl
  | cons x l ih =>
    by_cases hq : q x = true
    · rw [List.filter_cons_of_pos hq]
      by_cases hp : p x = true
      · rw [List.find?_cons_of_pos _ hp, List.find?_cons_of_pos _ hp]
      · rw [List.find?_cons_of_neg _ (by simpa using hp),
          List.find?_cons_of_neg _ (by simpa using hp), ih]
    · have hp : ¬ p x = true := fun h => hq (himp x h)
      rw [List.filter_cons_of_neg (by simpa using hq),
        List.find?_cons_of_neg _ (by simpa using hp), ih]

/-- Claim C5 as amended: in `_check_peer_health`, a peer whose probe raises
and whose `last_seen` lies more than 2 minutes in the past is evicted in
that cycle — absent from the registry, from the discovered set and from
`get_active_peers()`; a peer whose probe raises within the grace period
keeps its record completely untouched (in particular a previously active
peer stays active — it is never marked inactive by a raising probe); only a
probe answered with a non-200 HTTP status marks the peer inactive (and
refreshes its `last_seen` to now, which restarts the eviction clock). -/
theorem health_check_eviction_behavior (now : Nat)
    (probe : String → ProbeResult) (reg : Registry)
    (discovered : List String) (pid : String) (p : PeerInfo)
    (hnodup : (reg.map Prod.fst).Nodup) (hmem : (pid, p) ∈ reg) :
    (probe pid = ProbeResult.unreachable → p.lastSeen + 120 < now →
      lookupPeer (checkPeerHealth now probe reg discovered).1 pid = none ∧
      pid ∉ (checkPeerHealth now probe reg discovered).2 ∧
      ∀ q : PeerInfo,
        (pid, q) ∉ getActivePeers (checkPeerHealth now probe reg discovered).1) ∧
    (probe pid = ProbeResult.unreachable → ¬ p.lastSeen + 120 < now →
      lookupPeer (checkPeerHealth now probe reg discovered).1 pid = some p) ∧
    (∀ code, probe pid = ProbeResult.httpError code →
      lookupPeer (checkPeerHealth now probe reg discovered).1 pid =
        some { p with status := "inactive", lastSeen := now }) := by
  have hcoll : (reg.foldl (healthStep now probe) (reg, [])).2 =
      (reg.filter (stalePred now probe)).map Prod.fst := by
    rw [foldl_health_snd]
    rfl
  obtain ⟨l₁, l₂, hsplit⟩ := List.append_of_mem hmem
  have hkeys : (l₁.map Prod.fst ++ pid :: l₂.map Prod.fst).Nodup := by
    have := hnodup
    rw [hsplit] at this
    simpa using this
  have hpid1 : ∀ kv ∈ l₁, kv.1 ≠ pid := by
    intro kv hkv heq
    have hd := (List.nodup_append.mp hkeys).2.2
    exact hd (heq ▸ List.mem_map_of_mem Prod.fst hkv) (List.mem_cons_self _ _)
  have hpid2 : ∀ kv ∈ l₂, kv.1 ≠ pid := by
    intro kv hkv heq
    have h2 := (List.nodup_append.mp hkeys).2.1
    rw [List.nodup_cons] at h2
    exact h2.1 (heq ▸ List.mem_map_of_mem Prod.fst hkv)
  have hlookup_reg : lookupPeer reg pid = some p := by
    unfold lookupPeer
    rw [find?_of_nodup_mem hnodup hmem]
    rfl
  -- the registry part of the fold, evaluated through the split
  have hfold : ∀ acc2 : List String,
      lookupPeer ((reg.foldl (healthStep now probe) (reg, acc2)).1) pid =
        lookupPeer (healthStep now probe
          (l₁.foldl (healthStep now probe) (reg, acc2)) (pid, p)).1 pid := by
    intro acc2
    rw [hsplit, List.foldl_append, List.foldl_cons]
    exact foldl_health_lookup_other now probe l₂ _ pid hpid2
  have hlookup_before :
      lookupPeer ((l₁.foldl (healthStep now probe) (reg, ([] : List String))).1) pid =
        some p := by
    rw [foldl_health_lookup_other now probe l₁ _ pid hpid1]
    exact hlookup_reg
  refine ⟨?_, ?_, ?_⟩
  · intro hunr hstale
    have hpidcoll : pid ∈ (reg.foldl (healthStep now probe) (reg, [])).2 := by
      rw [hcoll]
      exact List.mem_map.mpr ⟨(pid, p),
        List.mem_filter.mpr ⟨hmem, by simp [stalePred, hunr, hstale]⟩, rfl⟩
    refine ⟨?_, ?_, ?_⟩
    · show ((_ : Registry).find? _).map Prod.snd = none
      rw [List.find?_eq_none.mpr]
      · rfl
      · intro kv hkv
        have hq := List.of_mem_filter hkv
        simp only [decide_eq_true_eq] at hq
        simp only [decide_eq_true_eq]
        intro heq
        exact hq (heq ▸ hpidcoll)
    · intro hin
      have hq := List.of_mem_filter hin
      simp only [decide_eq_true_eq] at hq
      exact hq hpidcoll
    · intro q hq
      have h1 : (pid, q) ∈ (reg.foldl (healthStep now probe) (reg, [])).1.filter
          (fun kv => decide (kv.1 ∉ (reg.foldl (healthStep now probe) (reg, [])).2)) :=
        List.mem_of_mem_filter hq
      have h2 := List.of_mem_filter h1
      simp only [decide_eq_true_eq] at h2
      exact h2 hpidcoll
  · intro hunr hstale
    have hnotcoll : pid ∉ (reg.foldl (healthStep now probe) (reg, [])).2 := by
      rw [hcoll]
      intro hin
      obtain ⟨kv, hkv, hk⟩ := List.mem_map.mp hin
      have hkvreg : kv ∈ reg := List.mem_of_mem_filter hkv
      have : kv = (pid, p) :=
        List.inj_on_of_nodup_map hnodup hkvreg hmem (by simpa using hk)
      have hst := List.of_mem_filter hkv
      rw [this] at hst
      simp [stalePred, hunr, hstale] at hst
    show lookupPeer ((reg.foldl (healthStep now probe) (reg, [])).1.filter _) pid = _
    unfold lookupPeer
    rw [find?_filter_of_imp _ _ ?_]
    · have := hfold []
      unfold lookupPeer at this hlookup_before
      rw [this]
      have hstep : (healthStep now probe
          (l₁.foldl (healthStep now probe) (reg, ([] : List String))) (pid, p)) =
          l₁.foldl (healthStep now probe) (reg, ([] : List String)) := by
        simp [healthStep, hunr, hstale]
      rw [hstep]
      exact hlookup_before
    · intro x hx
      simp only [decide_eq_true_eq] at hx ⊢
      rw [hx]
      exact hnotcoll
  · intro code hhttp
    have hnotcoll : pid ∉ (reg.foldl (healthStep now probe) (reg, [])).2 := by
      rw [hcoll]
      intro hin
      obtain ⟨kv, hkv, hk⟩ := List.mem_map.mp hin
      have hkvreg : kv ∈ reg := List.mem_of_mem_filter hkv
      have : kv = (pid, p) :=
        List.inj_on_of_nodup_map hnodup hkvreg hmem (by simpa using hk)
      have hst := List.of_mem_filter hkv
      rw [this] at hst
      simp [stalePred, hhttp] at hst
    show lookupPeer ((reg.foldl (healthStep now probe) (reg, [])).1.filter _) pid = _
    unfold lookupPeer
    rw [find?_filter_of_imp _ _ ?_]
    · have := hfold []
      unfold lookupPeer at this
      rw [this]
      have hstep : lookupPeer (healthStep now probe
          (l₁.foldl (healthStep now probe) (reg, ([] : List String))) (pid, p)).1 pid =
          some { p with status := "inactive", lastSeen := now } := by
        have hupd : (healthStep now probe
            (l₁.foldl (healthStep now probe) (reg, ([] : List String))) (pid, p)).1 =
            updatePeerStatus
              (l₁.foldl (healthStep now probe) (reg, ([] : List String))).1
              pid "inactive" now := by
          simp [healthStep, hhttp]
        rw [hupd]
        exact updatePeerStatus_lookup_self _ pid "inactive" now p hlookup_before
      unfold lookupPeer at hstep
      exact hstep
    · intro x hx
      simp only [decide_eq_true_eq] at hx ⊢
      rw [hx]
      exact hnotcoll

/-- Probe used in the C5 witness: "p1" is unreachable, everything else
answers 200. -/
def probeEx : String → ProbeResult :=
  fun pid => if pid = "p1" then ProbeResult.unreachable else ProbeResult.ok

/-- Peer record used in the C5 witness: active but last seen at time 100,
far beyond the grace period at time 400. -/
def peerStaleEx : PeerInfo := ⟨"10.0.0.7", 8000, 100, "active"⟩

/-- Witness for the amended claim C5 at time 400 on a one-peer registry
whose peer has been unreachable since time 100. -/
theorem health_check_eviction_behavior_witness :
    (probeEx "p1" = ProbeResult.unreachable → peerStaleEx.lastSeen + 120 < 400 →
      lookupPeer (checkPeerHealth 400 probeEx [("p1", peerStaleEx)] ["p1"]).1 "p1" =
        none ∧
      "p1" ∉ (checkPeerHealth 400 probeEx [("p1", peerStaleEx)] ["p1"]).2 ∧
      ∀ q : PeerInfo,
        ("p1", q) ∉ getActivePeers
          (checkPeerHealth 400 probeEx [("p1", peerStaleEx)] ["p1"]).1) ∧
    (probeEx "p1" = ProbeResult.unreachable → ¬ peerStaleEx.lastSeen + 120 < 400 →
      lookupPeer (checkPeerHealth 400 probeEx [("p1", peerStaleEx)] ["p1"]).1 "p1" =
        some peerStaleEx) ∧
    (∀ code, probeEx "p1" = ProbeResult.httpError code →
      lookupPeer (checkPeerHealth 400 probeEx [("p1", peerStaleEx)] ["p1"]).1 "p1" =
        some { peerStaleEx with status := "inactive", lastSeen := 400 }) :=
  health_check_eviction_behavior 400 probeEx [("p1", peerStaleEx)] ["p1"]
    "p1" peerStaleEx (by decide) (by decide)

/-- Set-style insertion into `PeerDiscovery.discovered_peers`. -/
def insertDiscovered (pid : String) (d : List String) : List String :=
  if pid ∈ d then d else d ++ [pid]

/-- One operation on the peer registry. -/
inductive RegOp where
  | announce (pid : String) (p : PeerInfo) (verified : Bool)
  | manualAdd (pid : String) (p : PeerInfo)
  | healthCycle (now : Nat) (probe : String → ProbeResult)
  | removeOp (pid : String)

/-- One registry transition on the state (registry, discovered set).
`announce` embeds `_handle_peer_announcement` with `_verify_and_add_peer`:
a self-announcement (`peer_id == own node_id`) is discarded, and the peer
is admitted (dict upsert plus discovered-set insertion) only when the
verification probe of its `/p2p/status` answered 200 (`verified`).
`manualAdd` embeds `POST /p2p/peers` followed by `P2PConfig.add_peer`: an
unconditional upsert with no own-identity check.  `healthCycle` embeds
`_check_peer_health`, and `removeOp` embeds `P2PConfig.remove_peer`
(`DELETE /p2p/peers/\x7bpeer_id\x7d`). -/
def applyRegOp (ownId : String) (st : Registry × List String) (op : RegOp) :
    Registry × List String :=
  match op with
  | .announce pid p verified =>
      if pid = ownId then st
      else if verified then (dictInsert pid p st.1, insertDiscovered pid st.2)
      else st
  | .manualAdd pid p => (dictInsert pid p st.1, st.2)
  | .healthCycle now probe => checkPeerHealth now probe st.1 st.2
  | .removeOp pid => (removePeer pid st.1, st.2)

/-- A whole sequence of registry operations. -/
def applyRegOps (ownId : String) (ops : List RegOp)
    (st : Registry × List String) : Registry × List String :=
  ops.foldl (applyRegOp ownId) st

/-- Claim C9 counterexample: starting from the empty registry (which
satisfies the invariant), a single `POST /p2p/peers` carrying
`peer_id = "nodeA"` on the node whose own identity is `"nodeA"` stores a
record whose peer_id equals the node's own identity — `add_peer` performs
no own-identity check on the manual path. -/
theorem manual_add_stores_own_identity :
    ("nodeA", peerP1) ∈
      (applyRegOps "nodeA" [RegOp.manualAdd "nodeA" peerP1] ([], [])).1 := by
  decide

theorem dictInsert_keys_nodup (pid : String) (p : PeerInfo) (reg : Registry)
    (h : (reg.map Prod.fst).Nodup) :
    ((dictInsert pid p reg).map Prod.fst).Nodup := by
  unfold dictInsert
  by_cases hany : reg.any (fun kv => decide (kv.1 = pid))
  · rw [if_pos hany, List.map_map]
    have : reg.map (Prod.fst ∘ fun kv => if kv.1 = pid then (pid, p) else kv) =
        reg.map Prod.fst := by
      refine List.map_congr_left (fun kv _ => ?_)
      by_cases hk : kv.1 = pid
      · simp [Function.comp, hk]
      · simp [Function.comp, hk]
    rw [this]
    exact h
  · rw [if_neg hany, List.map_append]
    have hnot : pid ∉ reg.map Prod.fst := by
      intro hin
      obtain ⟨kv, hkv, hk⟩ := List.mem_map.mp hin
      rw [List.any_eq_true] at hany
      exact hany ⟨kv, hkv, by simp [hk]⟩
    refine List.Nodup.append h (List.nodup_singleton pid) (fun x hx hx2 => ?_)
    have hxp : x = pid := List.mem_singleton.mp hx2
    exact hnot (hxp ▸ hx)

theorem dictInsert_no_self (ownId pid : String) (p : PeerInfo)
    (reg : Registry) (hself : ∀ q : PeerInfo, (ownId, q) ∉ reg)
    (hne : pid ≠ ownId) :
    ∀ q : PeerInfo, (ownId, q) ∉ dictInsert pid p reg := by
  intro q hq
  unfold dictInsert at hq
  by_cases hany : reg.any (fun kv => decide (kv.1 = pid))
  · rw [if_pos hany] at hq
    obtain ⟨kv, hkv, hk⟩ := List.mem_map.mp hq
    by_cases hkp : kv.1 = pid
    · rw [if_pos hkp] at hk
      exact hne (congrArg Prod.fst hk)
    · rw [if_neg hkp] at hk
      exact hself q (hk ▸ hkv)
  · rw [if_neg hany] at hq
    rcases List.mem_append.mp hq with hin | hin
    · exact hself q hin
    · rcases List.mem_singleton.mp hin with heq
      exact hne (congrArg Prod.fst heq.symm)

theorem checkPeerHealth_keys_nodup (now : Nat) (probe : String → ProbeResult)
    (reg : Registry) (disc : List String)
    (h : (reg.map Prod.fst).Nodup) :
    ((checkPeerHealth now probe reg disc).1.map Prod.fst).Nodup := by
  have hsub : ((checkPeerHealth now probe reg disc).1.map Prod.fst).Sublist
      (((reg.foldl (healthStep now probe) (reg, [])).1).map Prod.fst) :=
    (List.filter_sublist _).map Prod.fst
  rw [foldl_health_fst_keys] at hsub
  exact h.sublist hsub

theorem checkPeerHealth_no_self (ownId : String) (now : Nat)
    (probe : String → ProbeResult) (reg : Registry) (disc : List String)
    (hself : ∀ q : PeerInfo, (ownId, q) ∉ reg) :
    ∀ q : PeerInfo, (ownId, q) ∉ (checkPeerHealth now probe reg disc).1 := by
  intro q hq
  have h1 : (ownId, q) ∈ (reg.foldl (healthStep now probe) (reg, [])).1 :=
    List.mem_of_mem_filter hq
  have h2 : ownId ∈ ((reg.foldl (healthStep now probe) (reg, [])).1).map Prod.fst :=
    List.mem_map_of_mem Prod.fst h1
  rw [foldl_health_fst_keys] at h2
  obtain ⟨kv, hkv, hk⟩ := List.mem_map.mp h2
  have : (ownId, kv.2) ∈ reg := by
    rw [← hk]
    simpa using hkv
  exact hself kv.2 this

theorem applyRegOp_keys_nodup (ownId : String) (st : Registry × List String)
    (op : RegOp) (h : (st.1.map Prod.fst).Nodup) :
    (((applyRegOp ownId st op).1).map Prod.fst).Nodup := by
  rcases op with ⟨pid, p, verified⟩ | ⟨pid, p⟩ | ⟨now, probe⟩ | pid
  · simp only [applyRegOp]
    by_cases h1 : pid = ownId
    · rw [if_pos h1]
      exact h
    · rw [if_neg h1]
      by_cases h2 : verified = true
      · rw [if_pos h2]
        exact dictInsert_keys_nodup pid p st.1 h
      · rw [if_neg h2]
        exact h
  · exact dictInsert_keys_nodup pid p st.1 h
  · exact checkPeerHealth_keys_nodup now probe st.1 st.2 h
  · have hsub : ((removePeer pid st.1).map Prod.fst).Sublist (st.1.map Prod.fst) :=
      (List.filter_sublist _).map Prod.fst
    exact h.sublist hsub

theorem applyRegOp_no_self (ownId : String) (st : Registry × List String)
    (op : RegOp) (hself : ∀ q : PeerInfo, (ownId, q) ∉ st.1)
    (hop : ∀ q : PeerInfo, op ≠ RegOp.manualAdd ownId q) :
    ∀ q : PeerInfo, (ownId, q) ∉ (applyRegOp ownId st op).1 := by
  rcases op with ⟨pid, p, verified⟩ | ⟨pid, p⟩ | ⟨now, probe⟩ | pid
  · simp only [applyRegOp]
    by_cases h1 : pid = ownId
    · rw [if_pos h1]
      exact hself
    · rw [if_neg h1]
      by_cases h2 : verified = true
      · rw [if_pos h2]
        exact dictInsert_no_self ownId pid p st.1 hself h1
      · rw [if_neg h2]
        exact hself
  · have hne : pid ≠ ownId := by
      intro heq
      exact hop p (by rw [heq])
    exact dictInsert_no_self ownId pid p st.1 hself hne
  · exact checkPeerHealth_no_self ownId now probe st.1 st.2 hself
  · intro q hq
    exact hself q (List.mem_of_mem_filter hq)

/-- Claim C9 as amended: key uniqueness (at most one record per peer_id)
holds after every sequence of operations — the registry is a dict keyed by
peer_id; and no stored record carries the node's own identity as long as no
manual `POST /p2p/peers` names the own id — discovery drops
self-announcements, but the manual-add path performs no own-identity check,
so only sequences without a self manual-add preserve that half of the
invariant. -/
theorem registry_invariants (ownId : String) (ops : List RegOp)
    (reg : Registry) (disc : List String)
    (hnodup : (reg.map Prod.fst).Nodup) :
    (((applyRegOps ownId ops (reg, disc)).1).map Prod.fst).Nodup ∧
    ((∀ q : PeerInfo, (ownId, q) ∉ reg) →
      (∀ op ∈ ops, ∀ q : PeerInfo, op ≠ RegOp.manualAdd ownId q) →
      ∀ q : PeerInfo, (ownId, q) ∉ (applyRegOps ownId ops (reg, disc)).1) := by
  induction ops generalizing reg disc with
  | nil => exact ⟨hnodup, fun hself _ => hself⟩
  | cons op ops ih =>
    have hnodup' : (((applyRegOp ownId (reg, disc) op).1).map Prod.fst).Nodup :=
      applyRegOp_keys_nodup ownId (reg, disc) op hnodup
    have hfold : applyRegOps ownId (op :: ops) (reg, disc) =
        applyRegOps ownId ops (applyRegOp ownId (reg, disc) op) := by
      unfold applyRegOps
      rw [List.foldl_cons]
    rw [hfold]
    obtain ⟨ih1, ih2⟩ := ih (applyRegOp ownId (reg, disc) op).1
      (applyRegOp ownId (reg, disc) op).2 hnodup'
    refine ⟨ih1, fun hself hops => ih2 ?_ (fun o ho => hops o (List.mem_cons_of_mem _ ho))⟩
    exact applyRegOp_no_self ownId (reg, disc) op hself
      (hops op (List.mem_cons_self _ _))

/-- Operation sequence of the C9 witness: a verified announcement, a manual
add of a foreign peer, a removal and a health cycle. -/
def regOpsEx : List RegOp :=
  [RegOp.announce "p2" peerP1 true,
   RegOp.manualAdd "p3" peerStaleEx,
   RegOp.removeOp "p9",
   RegOp.healthCycle 400 probeEx]

/-- Witness for the amended claim C9 on a one-peer registry and the
four-operation sequence `regOpsEx`, none of which manually adds the own
identity `"nodeA"`. -/
theorem registry_invariants_witness :
    (((applyRegOps "nodeA" regOpsEx ([("p1", peerP1)], [])).1).map Prod.fst).Nodup ∧
    ((∀ q : PeerInfo, ("nodeA", q) ∉ [("p1", peerP1)]) →
      (∀ op ∈ regOpsEx, ∀ q : PeerInfo, op ≠ RegOp.manualAdd "nodeA" q) →
      ∀ q : PeerInfo,
        ("nodeA", q) ∉ (applyRegOps "nodeA" regOpsEx ([("p1", peerP1)], [])).1) :=
  registry_invariants "nodeA" regOpsEx [("p1", peerP1)] [] (by decide)

end P2P
